import Mathlib

/-!
Verification of the two mkdocs page-markdown hooks of the niri documentation:

* `docs/hooks/remove-must-fail.py` — deletes every case-insensitive
  occurrence of the literal `,must-fail` from the page text
  (`re.sub(r",must-fail", '', markdown, flags = re.I | re.M)`).
* `docs/hooks/shortcodes.py` — replaces every match of
  `<sup>(Until|Since): (.*?)</sup>` (flags `re.I | re.M`) by a version badge;
  the helper `_badge_for_version` picks an unlinked badge exactly when the
  captured version is the literal string `next release`, and a badge linked
  to `https://github.com/YaLTeR/niri/releases/tag/v{version}` otherwise.

Page text is modelled as `List Char`.  Both `re.sub` calls are modelled by a
left-to-right scan: at each position the pattern is tried; on a match the
replacement is emitted and the scan resumes after the matched span, otherwise
the character is copied and the scan advances by one.  The scans are written
with an explicit fuel argument (the length of the input always suffices, see
`stripFuel_congr` / `renderFuel_congr`) so that every run is a structural
recursion and concrete runs reduce inside the kernel.

Case-insensitive matching (`re.I`) on `str` patterns is full Unicode
case-insensitivity.  For the all-ASCII pattern characters of these hooks this
means: every letter matches its upper/lower-case pair, `s` and `S` also match
LATIN SMALL LETTER LONG S (U+017F), and `i` also matches LATIN SMALL LETTER
DOTLESS I (U+0131) and LATIN CAPITAL LETTER I WITH DOT ABOVE (U+0130); no
other non-ASCII code point is case-equivalent to any character of these
patterns (KELVIN SIGN, U+212A, is equivalent to `k`, which the patterns do
not use; it is carried by the model for completeness).  `ciEq` encodes
exactly these equivalence classes, checked exhaustively over all code points
against CPython's matcher.  `re.M` only alters `^`/`$`, which do not occur in
either pattern, so it has no effect.  In `(.*?)` the dot does not match a
newline (`re.S` is not set), and the lazy quantifier takes the nearest
closing `</sup>`.
-/

/-- ASCII lower-case folding on code points: `A`..`Z` map to `a`..`z`, all
other code points are unchanged.  The only non-ASCII code points whose
Unicode simple lowercase is ASCII, `İ` (U+0130) and KELVIN SIGN (U+212A),
are covered by the equivalence classes of `ciEq` instead. -/
def lowerCode (n : Nat) : Nat :=
  if 65 ≤ n ∧ n ≤ 90 then n + 32 else n

/-- The code points a literal `s` or `S` matches under CPython `re.I`:
`S` (83), `s` (115) and LATIN SMALL LETTER LONG S (U+017F, 383). -/
def sClass (m : Nat) : Bool :=
  m == 83 || m == 115 || m == 383

/-- The code points a literal `i` or `I` matches under CPython `re.I`:
`I` (73), `i` (105), LATIN CAPITAL LETTER I WITH DOT ABOVE (U+0130, 304)
and LATIN SMALL LETTER DOTLESS I (U+0131, 305). -/
def iClass (m : Nat) : Bool :=
  m == 73 || m == 105 || m == 304 || m == 305

/-- The code points a literal `k` or `K` matches under CPython `re.I`:
`K` (75), `k` (107) and KELVIN SIGN (U+212A, 8490). -/
def kClass (m : Nat) : Bool :=
  m == 75 || m == 107 || m == 8490

/-- One literal pattern character matching one text character, as CPython
`re.I` matches `str` patterns: the literal is lowered and matches every text
character whose Unicode simple lowercase lies in the literal's equivalence
class.  For ASCII literals the classes beyond the plain upper/lower pairs
are those of `s`, `i` and `k` above; no other non-ASCII code point is
case-equivalent to an ASCII character, so for the remaining literals ASCII
folding of the text character is exact.  This reproduces CPython's matcher
on the all-ASCII patterns of the two hooks against arbitrary text (verified
exhaustively over all code points for every pattern character used). -/
def ciEq (p t : Char) : Bool :=
  if lowerCode p.toNat = 115 then sClass t.toNat
  else if lowerCode p.toNat = 105 then iClass t.toNat
  else if lowerCode p.toNat = 107 then kClass t.toNat
  else lowerCode t.toNat == lowerCode p.toNat

/-- Does the text start with the pattern, comparing case-insensitively? -/
def ciStartsWith : List Char → List Char → Bool
  | [], _ => true
  | _ :: _, [] => false
  | p :: ps, c :: cs => ciEq p c && ciStartsWith ps cs

/-- The literal pattern of `remove-must-fail.py`: `,must-fail` (10 chars). -/
def mustFail : List Char := [',', 'm', 'u', 's', 't', '-', 'f', 'a', 'i', 'l']

/-- Does the text contain a case-insensitive occurrence of the pattern at some
position? -/
def containsCI (pat : List Char) : List Char → Bool
  | [] => ciStartsWith pat []
  | c :: cs => ciStartsWith pat (c :: cs) || containsCI pat cs

/-- The scan of `re.sub(r",must-fail", '', markdown, flags = re.I | re.M)`,
with explicit fuel.  On a match the ten matched characters are dropped and the
scan resumes after them; otherwise one character is copied. -/
def stripFuel : Nat → List Char → List Char
  | 0, s => s
  | _, [] => []
  | n + 1, c :: cs =>
    if ciStartsWith mustFail (c :: cs) then stripFuel n (cs.drop 9)
    else c :: stripFuel n cs

/-- `remove-must-fail.py`'s transform on page text: the fuel `s.length` always
suffices (`stripFuel_congr`). -/
def strip (s : List Char) : List Char := stripFuel s.length s

/-- The hook `on_page_markdown` of `remove-must-fail.py`: the contextual
keyword parameters `page`, `config`, `files` are accepted and ignored. -/
def RemoveMustFail.on_page_markdown {P C F : Type} (markdown : List Char)
    (page : P) (config : C) (files : F) : List Char :=
  strip markdown

/-- Literal `<sup>` of the badge pattern. -/
def openSup : List Char := ['<', 's', 'u', 'p', '>']

/-- First alternative of the preposition group. -/
def untilW : List Char := ['U', 'n', 't', 'i', 'l']

/-- Second alternative of the preposition group. -/
def sinceW : List Char := ['S', 'i', 'n', 'c', 'e']

/-- Literal `: ` between the preposition and the version. -/
def colonSp : List Char := [':', ' ']

/-- Literal `</sup>` closing the badge pattern. -/
def closeSup : List Char := ['<', '/', 's', 'u', 'p', '>']

/-- Lazy search of `(.*?)</sup>`: the shortest run of non-newline characters
followed by a case-insensitive `</sup>`.  Returns the captured version and the
text after the close, or `none` when a newline or the end of the text comes
first. -/
def findClose : List Char → Option (List Char × List Char)
  | [] => none
  | c :: cs =>
    if ciStartsWith closeSup (c :: cs) then some ([], cs.drop 5)
    else if c = '\n' then none
    else
      match findClose cs with
      | some (v, rest) => some (c :: v, rest)
      | none => none

/-- Try the whole pattern `<sup>(Until|Since): (.*?)</sup>` at the head of the
text.  On success returns the verbatim preposition slice, the verbatim version
slice, and the text after the match. -/
def matchBadge (s : List Char) : Option (List Char × List Char × List Char) :=
  if ciStartsWith openSup s then
    if ciStartsWith untilW ((s.drop 5).take 5) || ciStartsWith sinceW ((s.drop 5).take 5) then
      if ciStartsWith colonSp (s.drop 10) then
        match findClose (s.drop 12) with
        | some (v, rest) => some ((s.drop 5).take 5, v, rest)
        | none => none
      else none
    else none
  else none

/-- `_badge_for_version` of `shortcodes.py`: an unlinked badge for the
sentinel version `next release`, a badge linked to the release tag page for
every other version. -/
def badge_for_version (preposition version : List Char) : List Char :=
  if version = "next release".data then
    "<span class=\"badge\">".data ++ preposition ++ ": ".data ++ version
      ++ "</span>".data
  else
    "<span class=\"badge\">[".data ++ preposition ++ ": ".data ++ version
      ++ "](https://github.com/YaLTeR/niri/releases/tag/v".data ++ version
      ++ ")</span>".data

/-- The scan of `re.sub(r"<sup>(Until|Since): (.*?)</sup>", replace, markdown,
flags = re.I | re.M)`, with explicit fuel. -/
def renderFuel : Nat → List Char → List Char
  | 0, s => s
  | _, [] => []
  | n + 1, c :: cs =>
    match matchBadge (c :: cs) with
    | some (p, v, rest) => badge_for_version p v ++ renderFuel n rest
    | none => c :: renderFuel n cs

/-- `shortcodes.py`'s transform on page text: the fuel `s.length` always
suffices (`renderFuel_congr`). -/
def render (s : List Char) : List Char := renderFuel s.length s

/-- The hook `on_page_markdown` of `shortcodes.py`: the contextual keyword
parameters `page`, `config`, `files` are accepted and ignored. -/
def Shortcodes.on_page_markdown {P C F : Type} (markdown : List Char)
    (page : P) (config : C) (files : F) : List Char :=
  render markdown

/-- Does the text contain a match of the badge pattern at some position? -/
def hasBadge : List Char → Bool
  | [] => false
  | c :: cs => (matchBadge (c :: cs)).isSome || hasBadge cs

/-- A newline occurs before the first case-insensitive `</sup>` (or before the
end of the text when there is no close at all). -/
def newlineBeforeClose : List Char → Bool
  | [] => false
  | c :: cs =>
    if ciStartsWith closeSup (c :: cs) then false
    else if c = '\n' then true
    else newlineBeforeClose cs

/-- Case-insensitive `<sup>Until: `, the opener of a badge occurrence. -/
def untilOpen : List Char :=
  ['<', 's', 'u', 'p', '>', 'U', 'n', 't', 'i', 'l', ':', ' ']

/-- Case-insensitive `<sup>Since: `, the opener of a badge occurrence. -/
def sinceOpen : List Char :=
  ['<', 's', 'u', 'p', '>', 'S', 'i', 'n', 'c', 'e', ':', ' ']

/-- No match of the badge pattern starts at a position inside the prefix `a`
of the text `a ++ b`. -/
def badgeFreeIn : List Char → List Char → Bool
  | [], _ => true
  | c :: a', b => (matchBadge (c :: (a' ++ b))).isNone && badgeFreeIn a' b

/-- Matching `,must-fail` at any position inside the prefix `a` is unaffected
by the suffix `b`: the pattern matches at a position of `a ++ b` lying in `a`
exactly when it matches there in `a` alone (so no occurrence crosses the
boundary between `a` and `b`). -/
def mfAgrees : List Char → List Char → Bool
  | [], _ => true
  | c :: a', b =>
    (ciStartsWith mustFail (c :: (a' ++ b)) == ciStartsWith mustFail (c :: a'))
      && mfAgrees a' b

/-- The transform described by the spec of `remove-must-fail.py`: matches of
`,must-fail` (case-insensitive) are taken left to right, non-overlapping, and
deleted; every other character is kept unchanged. -/
inductive Strips : List Char → List Char → Prop
  | nil : Strips [] []
  | hit (s t : List Char) : ciStartsWith mustFail s = true →
      Strips (s.drop 10) t → Strips s t
  | miss (c : Char) (cs t : List Char) :
      ciStartsWith mustFail (c :: cs) = false →
      Strips cs t → Strips (c :: cs) (c :: t)

theorem ciStartsWith_length {p s : List Char} (h : ciStartsWith p s = true) :
    p.length ≤ s.length := by
  induction p generalizing s with
  | nil => simp
  | cons q qs ih =>
    cases s with
    | nil => simp [ciStartsWith] at h
    | cons c cs =>
      simp only [ciStartsWith, Bool.and_eq_true] at h
      simpa using Nat.succ_le_succ (ih h.2)

theorem stripFuel_congr : ∀ n m s, s.length ≤ n → s.length ≤ m →
    stripFuel n s = stripFuel m s := by
  intro n
  induction n with
  | zero =>
    intro m s hn _
    have hs : s = [] := List.eq_nil_of_length_eq_zero (Nat.le_zero.mp hn)
    subst hs
    cases m <;> rfl
  | succ n ih =>
    intro m s hn hm
    cases s with
    | nil => cases m <;> rfl
    | cons c cs =>
      cases m with
      | zero => simp at hm
      | succ m =>
        simp only [List.length_cons, Nat.succ_le_succ_iff] at hn hm
        have hd : (cs.drop 9).length ≤ cs.length := by
          rw [List.length_drop]; exact Nat.sub_le _ _
        simp only [stripFuel]
        by_cases h : ciStartsWith mustFail (c :: cs) = true
        · rw [if_pos h, if_pos h]
          exact ih m (cs.drop 9) (le_trans hd hn) (le_trans hd hm)
        · rw [if_neg h, if_neg h]
          rw [ih m cs hn hm]

theorem strip_cons (c : Char) (cs : List Char) :
    strip (c :: cs) =
      if ciStartsWith mustFail (c :: cs) then strip (cs.drop 9)
      else c :: strip cs := by
  show stripFuel (cs.length + 1) (c :: cs) = _
  have hd : (cs.drop 9).length ≤ cs.length := by
    rw [List.length_drop]; exact Nat.sub_le _ _
  simp only [stripFuel]
  by_cases h : ciStartsWith mustFail (c :: cs) = true
  · rw [if_pos h, if_pos h]
    exact stripFuel_congr cs.length (cs.drop 9).length (cs.drop 9) hd le_rfl
  · rw [if_neg h, if_neg h]
    rfl

theorem strip_of_not_contains :
    ∀ s : List Char, containsCI mustFail s = false → strip s = s := by
  intro s
  induction s with
  | nil => intro _; rfl
  | cons c cs ih =>
    intro h
    simp only [containsCI, Bool.or_eq_false_iff] at h
    rw [strip_cons, if_neg (by simp [h.1]), ih h.2]

theorem strips_unique : ∀ s t, Strips s t → t = strip s := by
  intro s t h
  induction h with
  | nil => rfl
  | hit s t hci _ ih =>
    cases s with
    | nil => simp [ciStartsWith, mustFail] at hci
    | cons c cs =>
      rw [ih, strip_cons, if_pos hci]
      rfl
  | miss c cs t hci _ ih =>
    rw [ih, strip_cons, if_neg (by simp [hci])]

theorem strips_strip_aux : ∀ n s, s.length ≤ n → Strips s (strip s) := by
  intro n
  induction n with
  | zero =>
    intro s h
    have hs : s = [] := List.eq_nil_of_length_eq_zero (Nat.le_zero.mp h)
    subst hs
    exact Strips.nil
  | succ n ih =>
    intro s h
    cases s with
    | nil => exact Strips.nil
    | cons c cs =>
      simp only [List.length_cons, Nat.succ_le_succ_iff] at h
      have hd : (cs.drop 9).length ≤ cs.length := by
        rw [List.length_drop]; exact Nat.sub_le _ _
      by_cases hci : ciStartsWith mustFail (c :: cs) = true
      · rw [strip_cons, if_pos hci]
        exact Strips.hit _ _ hci (ih (cs.drop 9) (le_trans hd h))
      · rw [strip_cons, if_neg hci]
        exact Strips.miss c cs _ (by simpa using hci) (ih cs h)

theorem strips_strip (s : List Char) : Strips s (strip s) :=
  strips_strip_aux s.length s le_rfl

theorem findClose_length :
    ∀ l v r, findClose l = some (v, r) → r.length < l.length := by
  intro l
  induction l with
  | nil => intro v r h; simp [findClose] at h
  | cons c cs ih =>
    intro v r h
    simp only [findClose] at h
    by_cases h1 : ciStartsWith closeSup (c :: cs) = true
    · rw [if_pos h1] at h
      obtain ⟨_, hr⟩ := Prod.mk.injEq .. ▸ Option.some.injEq .. ▸ h
      subst hr
      calc (cs.drop 5).length ≤ cs.length := by
            rw [List.length_drop]; exact Nat.sub_le _ _
        _ < (c :: cs).length := by simp
    · rw [if_neg h1] at h
      by_cases h2 : c = '\n'
      · rw [if_pos h2] at h
        exact absurd h (by simp)
      · rw [if_neg h2] at h
        cases hf : findClose cs with
        | none => rw [hf] at h; simp at h
        | some p =>
          obtain ⟨v0, r0⟩ := p
          rw [hf] at h
          simp only [Option.some.injEq, Prod.mk.injEq] at h
          have := ih v0 r0 hf
          rw [← h.2]
          exact Nat.lt_trans this (by simp)

theorem matchBadge_some_elim :
    ∀ s p v r, matchBadge s = some (p, v, r) →
      p = (s.drop 5).take 5 ∧ findClose (s.drop 12) = some (v, r) := by
  intro s p v r h
  simp only [matchBadge] at h
  by_cases h1 : ciStartsWith openSup s = true
  · rw [if_pos h1] at h
    by_cases h2 : (ciStartsWith untilW ((s.drop 5).take 5)
        || ciStartsWith sinceW ((s.drop 5).take 5)) = true
    · rw [if_pos h2] at h
      by_cases h3 : ciStartsWith colonSp (s.drop 10) = true
      · rw [if_pos h3] at h
        cases hf : findClose (s.drop 12) with
        | none => rw [hf] at h; simp at h
        | some q =>
          obtain ⟨v0, r0⟩ := q
          rw [hf] at h
          simp only [Option.some.injEq, Prod.mk.injEq] at h
          refine ⟨h.1.symm, ?_⟩
          rw [h.2.1, h.2.2]
      · rw [if_neg h3] at h; simp at h
    · rw [if_neg h2] at h; simp at h
  · rw [if_neg h1] at h; simp at h

theorem matchBadge_length :
    ∀ s p v r, matchBadge s = some (p, v, r) → r.length < s.length := by
  intro s p v r h
  have hf := (matchBadge_some_elim s p v r h).2
  have h1 := findClose_length (s.drop 12) v r hf
  have h2 : (s.drop 12).length ≤ s.length := by
    rw [List.length_drop]; exact Nat.sub_le _ _
  exact Nat.lt_of_lt_of_le h1 h2

theorem renderFuel_congr : ∀ n m s, s.length ≤ n → s.length ≤ m →
    renderFuel n s = renderFuel m s := by
  intro n
  induction n with
  | zero =>
    intro m s hn _
    have hs : s = [] := List.eq_nil_of_length_eq_zero (Nat.le_zero.mp hn)
    subst hs
    cases m <;> rfl
  | succ n ih =>
    intro m s hn hm
    cases s with
    | nil => cases m <;> rfl
    | cons c cs =>
      cases m with
      | zero => simp at hm
      | succ m =>
        simp only [List.length_cons, Nat.succ_le_succ_iff] at hn hm
        simp only [renderFuel]
        cases hmb : matchBadge (c :: cs) with
        | none =>
          dsimp only
          rw [ih m cs hn hm]
        | some t =>
          obtain ⟨p, v, r⟩ := t
          have hlen : r.length ≤ cs.length :=
            Nat.lt_succ_iff.mp (by simpa using matchBadge_length (c :: cs) p v r hmb)
          dsimp only
          rw [ih m r (le_trans hlen hn) (le_trans hlen hm)]

theorem render_cons_none (c : Char) (cs : List Char)
    (h : matchBadge (c :: cs) = none) : render (c :: cs) = c :: render cs := by
  show renderFuel (cs.length + 1) (c :: cs) = _
  simp only [renderFuel]
  rw [h]
  dsimp only
  rfl

theorem render_cons_some (c : Char) (cs p v r : List Char)
    (h : matchBadge (c :: cs) = some (p, v, r)) :
    render (c :: cs) = badge_for_version p v ++ render r := by
  show renderFuel (cs.length + 1) (c :: cs) = _
  simp only [renderFuel]
  rw [h]
  dsimp only
  have hlen : r.length ≤ cs.length :=
    Nat.lt_succ_iff.mp (by simpa using matchBadge_length (c :: cs) p v r h)
  rw [renderFuel_congr cs.length r.length r hlen le_rfl]
  rfl

theorem render_of_not_has : ∀ s, hasBadge s = false → render s = s := by
  intro s
  induction s with
  | nil => intro _; rfl
  | cons c cs ih =>
    intro h
    simp only [hasBadge, Bool.or_eq_false_iff] at h
    have hm : matchBadge (c :: cs) = none := by
      cases hmb : matchBadge (c :: cs) with
      | none => rfl
      | some t => rw [hmb] at h; simp at h
    rw [render_cons_none c cs hm, ih h.2]

theorem findClose_none_of_newline :
    ∀ l, newlineBeforeClose l = true → findClose l = none := by
  intro l
  induction l with
  | nil => intro _; rfl
  | cons c cs ih =>
    intro h
    simp only [newlineBeforeClose] at h
    simp only [findClose]
    by_cases h1 : ciStartsWith closeSup (c :: cs) = true
    · rw [if_pos h1] at h
      exact absurd h (by simp)
    · rw [if_neg h1] at h ⊢
      by_cases h2 : c = '\n'
      · rw [if_pos h2]
      · rw [if_neg h2] at h ⊢
        rw [ih h]

theorem matchBadge_none_of_close (s : List Char)
    (h : findClose (s.drop 12) = none) : matchBadge s = none := by
  simp only [matchBadge]
  by_cases h1 : ciStartsWith openSup s = true
  · rw [if_pos h1]
    by_cases h2 : (ciStartsWith untilW ((s.drop 5).take 5)
        || ciStartsWith sinceW ((s.drop 5).take 5)) = true
    · rw [if_pos h2]
      by_cases h3 : ciStartsWith colonSp (s.drop 10) = true
      · rw [if_pos h3, h]
      · rw [if_neg h3]
    · rw [if_neg h2]
  · rw [if_neg h1]

theorem ciEq_ne_lt {q c : Char} (h : ciEq q c = true)
    (hq : lowerCode q.toNat ≠ 60) : lowerCode c.toNat ≠ 60 := by
  simp only [ciEq] at h
  generalize c.toNat = m at h ⊢
  by_cases h1 : lowerCode q.toNat = 115
  · rw [if_pos h1] at h
    simp only [sClass, Bool.or_eq_true, beq_iff_eq] at h
    rcases h with (h | h) | h <;> subst h <;> decide
  · rw [if_neg h1] at h
    by_cases h2 : lowerCode q.toNat = 105
    · rw [if_pos h2] at h
      simp only [iClass, Bool.or_eq_true, beq_iff_eq] at h
      rcases h with ((h | h) | h) | h <;> subst h <;> decide
    · rw [if_neg h2] at h
      by_cases h3 : lowerCode q.toNat = 107
      · rw [if_pos h3] at h
        simp only [kClass, Bool.or_eq_true, beq_iff_eq] at h
        rcases h with (h | h) | h <;> subst h <;> decide
      · rw [if_neg h3] at h
        simp only [beq_iff_eq] at h
        rw [h]
        exact hq

theorem matchBadge_none_of_head (c : Char) (cs : List Char)
    (h : lowerCode c.toNat ≠ 60) : matchBadge (c :: cs) = none := by
  have h1 : ciEq '<' c = false := by
    simp only [ciEq]
    rw [if_neg (by decide), if_neg (by decide), if_neg (by decide)]
    simp only [beq_eq_false_iff_ne, ne_eq]
    intro hEq
    exact h (hEq.trans (by decide))
  have hop : ciStartsWith openSup (c :: cs) = false := by
    simp only [openSup, ciStartsWith, h1, Bool.false_and]
  simp only [matchBadge, hop]
  rw [if_neg (by simp)]

theorem render_skip_ci :
    ∀ p : List Char, (∀ c ∈ p, lowerCode c.toNat ≠ 60) →
    ∀ s : List Char, ciStartsWith p s = true →
      render s = s.take p.length ++ render (s.drop p.length) := by
  intro p
  induction p with
  | nil => intro _ s _; simp
  | cons q qs ih =>
    intro hp s hs
    cases s with
    | nil => simp [ciStartsWith] at hs
    | cons c cs =>
      simp only [ciStartsWith, Bool.and_eq_true] at hs
      have hc : lowerCode c.toNat ≠ 60 := ciEq_ne_lt hs.1 (hp q (by simp))
      rw [render_cons_none c cs (matchBadge_none_of_head c cs hc),
        ih (fun x hx => hp x (List.mem_cons_of_mem q hx)) cs hs.2]
      simp

theorem mfAgrees_drop : ∀ (a b : List Char), mfAgrees a b = true →
    ∀ k, mfAgrees (a.drop k) b = true := by
  intro a
  induction a with
  | nil =>
    intro b _ k
    cases k <;> rfl
  | cons c a' ih =>
    intro b h k
    cases k with
    | zero => exact h
    | succ k =>
      simp only [mfAgrees, Bool.and_eq_true] at h
      exact ih b h.2 k

theorem render_append_of_badgeFree :
    ∀ a b : List Char, badgeFreeIn a b = true →
      render (a ++ b) = a ++ render b := by
  intro a
  induction a with
  | nil => intro b _; rfl
  | cons c a' ih =>
    intro b h
    simp only [badgeFreeIn, Bool.and_eq_true, Option.isNone_iff_eq_none] at h
    rw [List.cons_append, render_cons_none c (a' ++ b) h.1, ih b h.2,
      List.cons_append]

theorem strip_append_of_agrees :
    ∀ n a b, a.length ≤ n → mfAgrees a b = true →
      strip (a ++ b) = strip a ++ strip b := by
  intro n
  induction n with
  | zero =>
    intro a b ha _
    have hnil : a = [] := List.eq_nil_of_length_eq_zero (Nat.le_zero.mp ha)
    subst hnil
    rfl
  | succ n ih =>
    intro a b ha hagr
    cases a with
    | nil => rfl
    | cons c a' =>
      simp only [List.length_cons, Nat.succ_le_succ_iff] at ha
      simp only [mfAgrees, Bool.and_eq_true, beq_iff_eq] at hagr
      rw [List.cons_append]
      by_cases hci : ciStartsWith mustFail (c :: a') = true
      · have hcib : ciStartsWith mustFail (c :: (a' ++ b)) = true := by
          rw [hagr.1, hci]
        have h10 : (10 : Nat) ≤ a'.length + 1 := by
          simpa [mustFail] using ciStartsWith_length hci
        have hlen : 9 ≤ a'.length := by omega
        rw [strip_cons, if_pos hcib, strip_cons, if_pos hci,
          List.drop_append_of_le_length hlen]
        exact ih (a'.drop 9) b
          (le_trans (by rw [List.length_drop]; exact Nat.sub_le _ _) ha)
          (mfAgrees_drop a' b hagr.2 9)
      · rw [strip_cons, if_neg (by rw [hagr.1]; exact hci), strip_cons,
          if_neg hci, ih a' b ha hagr.2, List.cons_append]

theorem strip_append_split (a b : List Char) (h : mfAgrees a b = true) :
    strip (a ++ b) = strip a ++ strip b :=
  strip_append_of_agrees a.length a b le_rfl h

/-- Claim C1: wherever the badge pattern matches, the renderer replaces the
match as follows: when the captured version is exactly the literal string
`next release` (case-sensitive) the replacement is the unlinked badge
`<span class="badge">{Preposition}: {Version}</span>`; for every other
captured version it is the linked badge
`<span class="badge">[{Preposition}: {Version}](https://github.com/YaLTeR/niri/releases/tag/v{Version})</span>`,
with the version interpolated verbatim into the URL. -/
theorem c1_badge_replacement (s p v r : List Char)
    (h : matchBadge s = some (p, v, r)) :
    render s =
      (if v = "next release".data then
        "<span class=\"badge\">".data ++ p ++ ": ".data ++ v ++ "</span>".data
      else
        "<span class=\"badge\">[".data ++ p ++ ": ".data ++ v
          ++ "](https://github.com/YaLTeR/niri/releases/tag/v".data ++ v
          ++ ")</span>".data) ++ render r := by
  cases s with
  | nil =>
    rw [show matchBadge [] = none from rfl] at h
    exact absurd h (by simp)
  | cons c cs =>
    rw [render_cons_some c cs p v r h]
    rfl

theorem c1_badge_replacement_witness :
    render "<sup>Since: 0.1.0</sup>".data =
      "<span class=\"badge\">[Since: 0.1.0](https://github.com/YaLTeR/niri/releases/tag/v0.1.0)</span>".data ∧
    render "<sup>Until: next release</sup>".data =
      "<span class=\"badge\">Until: next release</span>".data := by
  constructor
  · rw [c1_badge_replacement ("<sup>Since: 0.1.0</sup>".data) ("Since".data)
      ("0.1.0".data) [] (by decide)]
    decide
  · rw [c1_badge_replacement ("<sup>Until: next release</sup>".data) ("Until".data)
      ("next release".data) [] (by decide)]
    decide

/-- Claim C2: the stripper returns the input with every case-insensitive
occurrence of `,must-fail` deleted, matches taken left to right and
non-overlapping, and no other character altered (the relation `Strips`
renders exactly this description, and it characterises `strip`); in
particular `PYTHON,MUST-FAIL` becomes `PYTHON` even outside a code fence. -/
theorem c2_stripper_spec :
    (∀ s : List Char, Strips s (strip s)) ∧
    (∀ s t : List Char, Strips s t → t = strip s) ∧
    strip "PYTHON,MUST-FAIL".data = "PYTHON".data :=
  ⟨strips_strip, strips_unique, by decide⟩

theorem c2_stripper_spec_witness :
    ('P' :: 'Y' :: []) = strip ('P' :: 'Y' :: []) :=
  c2_stripper_spec.2.1 _ _
    (Strips.miss 'P' ['Y'] ['Y'] (by decide)
      (Strips.miss 'Y' [] [] (by decide) Strips.nil))

/-- Claim C3 fails on the code: on
`<,must-failsup>Since: 1</sup>` stripping first turns the text into a badge
match that the renderer then replaces, while rendering first finds no badge
match and stripping afterwards leaves the `<sup>` annotation unreplaced, so
the two hooks do not commute. -/
theorem c3_commute_counterexample :
    render (strip "<,must-failsup>Since: 1</sup>".data) ≠
      strip (render "<,must-failsup>Since: 1</sup>".data) := by decide

/-- Claim C3 (amended): the two hooks commute on every input on which their
matches do not overlap, in the following sense: the input splits as `a ++ b`
where no badge-pattern match starts inside the prefix `a` (neither before
nor after stripping `a`), the suffix `b` and its rendered form contain no
case-insensitive `,must-fail`, and matching `,must-fail` inside `a` is
unaffected by the following text (`b` or its rendered form).  This covers
the spec's Scenario 6, a `,must-fail` fence annotation followed by a badge
annotation, where both hooks do real work. -/
theorem c3_commute_amended (a b : List Char)
    (h1 : badgeFreeIn a b = true)
    (h2 : badgeFreeIn (strip a) b = true)
    (h3 : containsCI mustFail b = false)
    (h4 : containsCI mustFail (render b) = false)
    (h5 : mfAgrees a b = true)
    (h6 : mfAgrees a (render b) = true) :
    render (strip (a ++ b)) = strip (render (a ++ b)) := by
  rw [strip_append_split a b h5, strip_of_not_contains b h3,
    render_append_of_badgeFree (strip a) b h2,
    render_append_of_badgeFree a b h1,
    strip_append_split a (render b) h6,
    strip_of_not_contains (render b) h4]

theorem c3_commute_amended_witness :
    render (strip ("x,must-fail\n".data ++ "<sup>Since: 0.1.0</sup>".data)) =
      strip (render ("x,must-fail\n".data ++ "<sup>Since: 0.1.0</sup>".data)) :=
  c3_commute_amended _ _ (by decide) (by decide) (by decide) (by decide)
    (by decide) (by decide)

/-- Claim C4 fails on the code: `re.sub` makes a single pass, and deleting a
match can create a fresh `,must-fail` occurrence, so the stripper is not
idempotent; on `,mu,must-failst-fail` one application yields `,must-fail`
and a second application yields the empty string. -/
theorem c4_idempotent_counterexample :
    strip (strip ",mu,must-failst-fail".data) ≠
      strip ",mu,must-failst-fail".data := by decide

/-- Claim C4 (amended): applying the stripper twice equals applying it once
for every input whose stripped form contains no case-insensitive occurrence
of `,must-fail` (stripping a string with no remaining matches is a no-op). -/
theorem c4_idempotent_amended (s : List Char)
    (h : containsCI mustFail (strip s) = false) :
    strip (strip s) = strip s :=
  strip_of_not_contains (strip s) h

theorem c4_idempotent_amended_witness :
    strip (strip ",must-failA".data) = strip ",must-failA".data :=
  c4_idempotent_amended _ (by decide)

/-- Claim C5: the stripper is a no-op on every string with no
case-insensitive occurrence of the substring `,must-fail`. -/
theorem c5_noop_no_occurrence (s : List Char)
    (h : containsCI mustFail s = false) : strip s = s :=
  strip_of_not_contains s h

theorem c5_noop_no_occurrence_witness :
    strip "PYTHON".data = "PYTHON".data :=
  c5_noop_no_occurrence _ (by decide)

/-- Claim C6: the badge renderer is a no-op on every string containing no
match of the badge pattern `<sup>(Until|Since): (.*?)</sup>`
(case-insensitive). -/
theorem c6_noop_no_badge (s : List Char)
    (h : hasBadge s = false) : render s = s :=
  render_of_not_has s h

theorem c6_noop_no_badge_witness :
    render "hello world".data = "hello world".data :=
  c6_noop_no_badge _ (by decide)

/-- Claim C7: for both hooks the returned text depends only on the
`markdown` argument: the contextual `page`, `config` and `files` parameters
are accepted but never used, so any two assignments (even at different
types) give the same output. -/
theorem c7_context_independent :
    ∀ (P C F P2 C2 F2 : Type) (markdown : List Char)
      (p : P) (c : C) (f : F) (p2 : P2) (c2 : C2) (f2 : F2),
      RemoveMustFail.on_page_markdown markdown p c f =
        RemoveMustFail.on_page_markdown markdown p2 c2 f2 ∧
      Shortcodes.on_page_markdown markdown p c f =
        Shortcodes.on_page_markdown markdown p2 c2 f2 :=
  fun _ _ _ _ _ _ _ _ _ _ _ _ _ => ⟨rfl, rfl⟩

/-- Claim C8: both transforms are total over arbitrary string input: every
input, the empty string included, has a well-defined output — the fuelled
scans never exhaust a fuel of at least the input length, so the result is
independent of any sufficient fuel. -/
theorem c8_totality :
    (∀ (markdown : List Char) (n : Nat), markdown.length ≤ n →
      stripFuel n markdown = strip markdown ∧
      renderFuel n markdown = render markdown) ∧
    strip [] = [] ∧ render [] = [] :=
  ⟨fun md n h => ⟨stripFuel_congr n md.length md h le_rfl,
    renderFuel_congr n md.length md h le_rfl⟩, rfl, rfl⟩

theorem c8_totality_witness :
    stripFuel 9 "abc".data = strip "abc".data ∧
    renderFuel 9 "abc".data = render "abc".data :=
  c8_totality.1 _ 9 (by decide)

/-- Claim C9: the badge pattern is matched case-insensitively while the
captured groups are interpolated verbatim: the preposition group is the
verbatim five-character slice of the text, `<sup>since: 1.0</sup>` yields a
badge reading `since: 1.0` (not normalised to `Since`), and
`<SUP>UNTIL: 1.0</SUP>` yields a badge reading `UNTIL: 1.0`. -/
theorem c9_case_preserved :
    (∀ s p v r : List Char, matchBadge s = some (p, v, r) →
      p = (s.drop 5).take 5) ∧
    render "<sup>since: 1.0</sup>".data =
      "<span class=\"badge\">[since: 1.0](https://github.com/YaLTeR/niri/releases/tag/v1.0)</span>".data ∧
    render "<SUP>UNTIL: 1.0</SUP>".data =
      "<span class=\"badge\">[UNTIL: 1.0](https://github.com/YaLTeR/niri/releases/tag/v1.0)</span>".data :=
  ⟨fun s p v r h => (matchBadge_some_elim s p v r h).1, by decide, by decide⟩

theorem c9_case_preserved_witness :
    "since".data = (("<sup>since: 1.0</sup>".data.drop 5).take 5) :=
  c9_case_preserved.1 ("<sup>since: 1.0</sup>".data) ("since".data)
    ("1.0".data) [] (by decide)

/-- Claim C10: the version capture does not cross line boundaries: at any
occurrence of `<sup>Until: ` or `<sup>Since: ` (case-insensitive) where a
newline precedes the nearest closing `</sup>`, the pattern does not match,
and the renderer copies the twelve opener characters unchanged and continues
after them. -/
theorem c10_no_multiline (s : List Char)
    (hocc : ciStartsWith untilOpen s = true ∨ ciStartsWith sinceOpen s = true)
    (hnl : newlineBeforeClose (s.drop 12) = true) :
    matchBadge s = none ∧ render s = s.take 12 ++ render (s.drop 12) := by
  have hm : matchBadge s = none :=
    matchBadge_none_of_close s (findClose_none_of_newline _ hnl)
  refine ⟨hm, ?_⟩
  cases s with
  | nil =>
    rcases hocc with h | h <;> simp [untilOpen, sinceOpen, ciStartsWith] at h
  | cons c cs =>
    have hstep : render (c :: cs) = c :: render cs := render_cons_none c cs hm
    rcases hocc with h | h
    · simp only [untilOpen, ciStartsWith, Bool.and_eq_true] at h
      have htl := render_skip_ci ['s', 'u', 'p', '>', 'U', 'n', 't', 'i', 'l', ':', ' ']
        (by decide) cs h.2
      rw [hstep, htl]
      rfl
    · simp only [sinceOpen, ciStartsWith, Bool.and_eq_true] at h
      have htl := render_skip_ci ['s', 'u', 'p', '>', 'S', 'i', 'n', 'c', 'e', ':', ' ']
        (by decide) cs h.2
      rw [hstep, htl]
      rfl

theorem c10_no_multiline_witness :
    matchBadge "<sup>Since: a\nb</sup>".data = none ∧
    render "<sup>Since: a\nb</sup>".data =
      ("<sup>Since: a\nb</sup>".data.take 12)
        ++ render ("<sup>Since: a\nb</sup>".data.drop 12) :=
  c10_no_multiline _ (Or.inr (by decide)) (by decide)
